import Mathlib

/-!
# Verification of the Watcharr authentication subsystem (`server/auth.go`)

This file gives a shallow embedding, in Lean 4, of the authentication core of
the Watcharr repository: password hashing and verification (`hashPassword`,
`compareHash`, `decodeHash`), JWT issuance and verification (`signJWT`,
`AuthRequired`), and the three authentication flows (`register`, `login`,
`loginJellyfin`).

Modelling conventions:

* Go strings are Lean `String` / `List Char`; Go byte slices are `List Nat`
  with every element `< 256` (machine widths are explicit side conditions).
* The Argon2 key-derivation function `argon2.IDKey` (an external library
  primitive) is an abstract parameter `idKey : String → List Nat → Nat → Nat
  → Nat → Nat → List Nat` taking password, salt, iterations, memory,
  parallelism and key length, in the source's argument order.
* The HMAC-SHA256 primitive used by the JWT library is an abstract parameter
  `mac : String → TokenClaims → String` (secret, signed payload); a compact
  JWT is modelled as its payload together with the signature, since the
  JSON/base64url transport layer of the library is lossless.
* The random salt generated by `generateRandomBytes` is passed in explicitly,
  making `hashPassword` a pure function of password, parameters and salt.
* The GORM store is modelled per call site: `register` takes an abstract
  `create` outcome (so that arbitrary store failures are representable),
  while `loginJellyfin` threads an explicit list-of-users store state whose
  `Take`/`Create` calls are embedded directly.
-/

/-! ## Characters and decimal digits -/

/-- Decimal digit value of a character, as used when reading back `%d` text. -/
def digitVal (c : Char) : Nat := c.toNat - 48

/-- `strings.Split(s, "$")`-style splitting of a character list on a
separator, with Go semantics: `splitOn sep s` always returns one more group
than there are separators in `s`. -/
def splitOn (sep : Char) : List Char → List (List Char)
  | [] => [[]]
  | c :: rest =>
    if c = sep then [] :: splitOn sep rest
    else
      match splitOn sep rest with
      | [] => [[c]]
      | g :: gs => (c :: g) :: gs

/-- The character for a single decimal digit. -/
def digitChar (d : Nat) : Char :=
  if d = 0 then '0' else if d = 1 then '1' else if d = 2 then '2'
  else if d = 3 then '3' else if d = 4 then '4' else if d = 5 then '5'
  else if d = 6 then '6' else if d = 7 then '7' else if d = 8 then '8'
  else '9'

/-- Fueled digit loop: prepend the decimal digits of `n` to `acc`.  The fuel
only bounds the recursion; any fuel above `n` yields the digits of `n`. -/
def natToCharsAux : Nat → Nat → List Char → List Char
  | 0, _, acc => acc
  | fuel + 1, n, acc =>
    if n < 10 then digitChar n :: acc
    else natToCharsAux fuel (n / 10) (digitChar (n % 10) :: acc)

/-- Decimal rendering of a natural number, most significant digit first, as
produced by Go's `fmt.Sprintf("%d", n)` for unsigned values. -/
def natToChars (n : Nat) : List Char :=
  natToCharsAux (n + 1) n []

/-- Greedy maximal run of decimal digits at the head of the input, returning
the digits and the remainder. -/
def takeDigits : List Char → List Char × List Char
  | [] => ([], [])
  | c :: rest =>
    if c.isDigit then
      let p := takeDigits rest
      (c :: p.1, p.2)
    else ([], c :: rest)

/-- Value of a list of decimal digit characters, most significant first. -/
def digitsToNat (ds : List Char) : Nat :=
  ds.foldl (fun a c => a * 10 + digitVal c) 0

/-- The input does not continue with a digit (so a greedy digit scan stops
exactly here). -/
def headNotDigit : List Char → Prop
  | [] => True
  | c :: _ => c.isDigit = false

/-- Model of scanning `%d` into an unsigned Go integer: skip leading spaces,
then require at least one digit; trailing input is returned unconsumed.
Go's scanner accepts any Unicode space here; the model covers `' '`. -/
def parseNat (cs : List Char) : Option (Nat × List Char) :=
  let cs := cs.dropWhile (· = ' ')
  let p := takeDigits cs
  if p.1 = [] then none else some (digitsToNat p.1, p.2)

/-- Model of scanning `%d` into a signed Go integer (`var version int`):
an optional sign followed by digits. -/
def parseInt (cs : List Char) : Option (Int × List Char) :=
  match cs.dropWhile (· = ' ') with
  | '-' :: rest => (parseNat rest).map (fun p => (-(p.1 : Int), p.2))
  | '+' :: rest => (parseNat rest).map (fun p => ((p.1 : Int), p.2))
  | rest => (parseNat rest).map (fun p => ((p.1 : Int), p.2))

/-- `strings.Contains(s, pat)`: `pat` occurs as a contiguous substring. -/
def strContains (s pat : String) : Bool :=
  decide (pat.data <:+: s.data)

/-! ## Base64 (`base64.RawStdEncoding`, no padding, `Strict()` decoding) -/

/-- Standard base64 alphabet: sextet value to character. -/
def b64Char (s : Nat) : Char :=
  if s < 26 then Char.ofNat (65 + s)
  else if s < 52 then Char.ofNat (97 + (s - 26))
  else if s < 62 then Char.ofNat (48 + (s - 52))
  else if s = 62 then '+' else '/'

/-- Standard base64 alphabet: character back to sextet value; `none` for
characters outside the alphabet (including the padding character, which
`RawStdEncoding` rejects). -/
def b64Val (c : Char) : Option Nat :=
  if 'A' ≤ c ∧ c ≤ 'Z' then some (c.toNat - 65)
  else if 'a' ≤ c ∧ c ≤ 'z' then some (c.toNat - 97 + 26)
  else if '0' ≤ c ∧ c ≤ '9' then some (c.toNat - 48 + 52)
  else if c = '+' then some 62
  else if c = '/' then some 63
  else none

/-- Byte groups of three to sextet groups of four (with the unpadded tail
forms of `RawStdEncoding`). -/
def b64EncodeSextets : List Nat → List Nat
  | [] => []
  | [b0] => [b0 / 4, b0 % 4 * 16]
  | [b0, b1] => [b0 / 4, b0 % 4 * 16 + b1 / 16, b1 % 16 * 4]
  | b0 :: b1 :: b2 :: rest =>
    b0 / 4 :: (b0 % 4 * 16 + b1 / 16) :: (b1 % 16 * 4 + b2 / 64) :: b2 % 64 ::
      b64EncodeSextets rest

/-- Sextet groups of four back to byte groups of three.  A tail of a single
sextet is malformed, and `Strict()` decoding requires the unused low bits of
a two- or three-sextet tail to be zero. -/
def b64DecodeSextets : List Nat → Option (List Nat)
  | [] => some []
  | [_] => none
  | [s0, s1] =>
    if s1 % 16 = 0 then some [s0 * 4 + s1 / 16] else none
  | [s0, s1, s2] =>
    if s2 % 4 = 0 then some [s0 * 4 + s1 / 16, s1 % 16 * 16 + s2 / 4] else none
  | s0 :: s1 :: s2 :: s3 :: rest =>
    (b64DecodeSextets rest).map
      (fun bs => (s0 * 4 + s1 / 16) :: (s1 % 16 * 16 + s2 / 4) ::
        (s2 % 4 * 64 + s3) :: bs)

/-- `base64.RawStdEncoding.EncodeToString` on a byte slice, as characters. -/
def b64EncodeChars (bs : List Nat) : List Char :=
  (b64EncodeSextets bs).map b64Char

/-- Character-wise alphabet lookup across a whole string; fails on the first
character outside the alphabet. -/
def b64Vals : List Char → Option (List Nat)
  | [] => some []
  | c :: cs =>
    match b64Val c, b64Vals cs with
    | some v, some vs => some (v :: vs)
    | _, _ => none

/-- `base64.RawStdEncoding.Strict().DecodeString`: alphabet lookup, then
regrouping sextets into bytes.  (Go's decoder additionally skips embedded
newline characters; the encoded hashes under study never contain them.) -/
def b64Decode (cs : List Char) : Option (List Nat) :=
  (b64Vals cs).bind b64DecodeSextets

/-! ## Password hashing (`hashPassword`, `decodeHash`, `compareHash`) -/

/-- `argon2.Version` (`0x13`). -/
def argon2Version : Nat := 19

/-- The Argon2 cost parameters (`ArgonParams` in the source); the Go field
types are `uint32` except `parallelism : uint8`. -/
structure ArgonParams where
  memory : Nat
  iterations : Nat
  parallelism : Nat
  saltLength : Nat
  keyLength : Nat
deriving Repr, DecidableEq

/-- The fixed parameters `register` passes to `hashPassword`. -/
def registerParams : ArgonParams :=
  { memory := 64 * 1024, iterations := 3, parallelism := 2
    saltLength := 16, keyLength := 32 }

/-- The type of the abstract `argon2.IDKey` primitive: password, salt,
iterations, memory, parallelism, key length. -/
def IDKeyFun : Type :=
  String → List Nat → Nat → Nat → Nat → Nat → List Nat

/-- `subtle.ConstantTimeCompare`: `1` exactly when the two byte slices have
equal length and contents, `0` otherwise.  (The constant-time execution of
the Go primitive is a timing property outside the value-level model.) -/
def constantTimeCompare (x y : List Nat) : Nat :=
  if x = y then 1 else 0

/-- `fmt.Sscanf(vals[2], "v=%d", &version)`: the literal `v=` followed by a
signed integer; trailing input after the number is ignored, as `Sscanf`
ignores unconsumed input. -/
def sscanfVEq (cs : List Char) : Option Int :=
  match cs with
  | 'v' :: '=' :: rest => (parseInt rest).map (fun p => p.1)
  | _ => none

/-- `fmt.Sscanf(vals[3], "m=%d,t=%d,p=%d", &p.memory, &p.iterations,
&p.parallelism)`: three unsigned integers separated by the literal text,
with the Go range checks for `uint32`, `uint32` and `uint8`; trailing input
after the last number is ignored. -/
def sscanfParams (cs : List Char) : Option (Nat × Nat × Nat) :=
  match cs with
  | 'm' :: '=' :: r1 =>
    match parseNat r1 with
    | some (m, ',' :: 't' :: '=' :: r2) =>
      match parseNat r2 with
      | some (t, ',' :: 'p' :: '=' :: r3) =>
        match parseNat r3 with
        | some (par, _) =>
          if m < 2 ^ 32 ∧ t < 2 ^ 32 ∧ par < 2 ^ 8 then some (m, t, par)
          else none
        | none => none
      | _ => none
    | _ => none
  | _ => none

/-- `decodeHash`: split the encoded string on `$`, requiring exactly six
fields; scan the version and reject any version other than `argon2.Version`;
scan the three cost parameters; base64-decode salt and derived key, reading
their lengths back into the parameter struct.  Every failure is an error,
mirroring the early returns of the source. -/
def decodeHash (encodedHash : String) :
    Except String (ArgonParams × List Nat × List Nat) :=
  match splitOn '$' encodedHash.data with
  | [_, _, v2, v3, v4, v5] =>
    match sscanfVEq v2 with
    | none => .error "version scan failed"
    | some version =>
      if version ≠ (argon2Version : Int) then
        .error "incompatible version of argon2"
      else
        match sscanfParams v3 with
        | none => .error "params scan failed"
        | some (m, t, par) =>
          match b64Decode v4 with
          | none => .error "illegal base64 data in salt"
          | some salt =>
            match b64Decode v5 with
            | none => .error "illegal base64 data in hash"
            | some hash =>
              .ok ({ memory := m, iterations := t, parallelism := par,
                     saltLength := salt.length, keyLength := hash.length },
                   salt, hash)
  | _ => .error "the encoded hash is not in the correct format"

/-- `compareHash`: decode the stored hash (propagating its error), re-derive
a key from the candidate password with the decoded parameters and salt, and
compare with `subtle.ConstantTimeCompare`. -/
def compareHash (idKey : IDKeyFun) (password encodedHash : String) :
    Except String Bool :=
  match decodeHash encodedHash with
  | .error e => .error e
  | .ok (p, salt, hash) =>
    let otherHash := idKey password salt p.iterations p.memory p.parallelism
      p.keyLength
    if constantTimeCompare hash otherHash = 1 then .ok true else .ok false

/-- `hashPassword`: derive a key from the password and the supplied salt
(the source draws the salt from `generateRandomBytes`; it is a parameter
here) and format the self-describing encoded hash
`$argon2id$v=%d$m=%d,t=%d,p=%d$<b64 salt>$<b64 key>`. -/
def hashPassword (idKey : IDKeyFun) (salt : List Nat) (password : String)
    (p : ArgonParams) : String :=
  let hash := idKey password salt p.iterations p.memory p.parallelism
    p.keyLength
  String.mk
    ('$' :: "argon2id".data ++
     '$' :: 'v' :: '=' :: natToChars argon2Version ++
     '$' :: 'm' :: '=' :: natToChars p.memory ++
       ',' :: 't' :: '=' :: natToChars p.iterations ++
       ',' :: 'p' :: '=' :: natToChars p.parallelism ++
     '$' :: b64EncodeChars salt ++
     '$' :: b64EncodeChars hash)

/-! ## Users, tokens and the JWT middleware -/

/-- The `User` entity (`GormModel` contributes the store-assigned `ID`).
`type` is the `UserType` tag: `0` for Watcharr-local users, `1`
(`JELLYFIN_USER`) for delegated Jellyfin users. -/
structure User where
  id : Nat
  username : String
  password : String
  type : Nat
  thirdPartyID : String
deriving Repr, DecidableEq

/-- `TokenClaims`: the custom claims plus the registered claims the source
sets (`IssuedAt`, `Issuer`). -/
structure TokenClaims where
  userId : Nat
  username : String
  issuedAt : Nat
  issuer : String
deriving Repr, DecidableEq

/-- The type of the abstract HMAC-SHA256 signing primitive: secret and
signed payload to signature. -/
def MacFun : Type := String → TokenClaims → String

/-- A compact signed token: the payload travels with the token and the
signature is recomputed on verification, which is how HS256 JWTs behave
once the lossless base64url/JSON transport is abstracted away. -/
structure SignedToken where
  claims : TokenClaims
  sig : String
deriving Repr, DecidableEq

/-- `AuthResponse`, the body returned by the three flows. -/
structure AuthResponse where
  token : SignedToken
deriving Repr, DecidableEq

/-- `signJWT`: issue a token for `user` carrying
`{userId, username, issuedAt := now, issuer := "watcharr"}`, signed with
`secret` (the source reads `JWT_SECRET` from the environment; `now` is the
current time).  `SignedString` cannot fail for an HMAC key, so the model is
total. -/
def signJWT (mac : MacFun) (secret : String) (now : Nat) (user : User) :
    SignedToken :=
  let claims : TokenClaims :=
    { userId := user.id, username := user.username
      issuedAt := now, issuer := "watcharr" }
  { claims := claims, sig := mac secret claims }

/-- `jwt.ParseWithClaims` against the configured secret: the token is valid
exactly when its signature equals the HMAC of its payload under that
secret (no expiry claim is set, so no other validation applies). -/
def parseWithClaims (mac : MacFun) (secret : String) (tok : SignedToken) :
    Option TokenClaims :=
  if tok.sig = mac secret tok.claims then some tok.claims else none

/-- The `Authorization` header as the middleware sees it: absent/empty, a
string that does not parse as a JWT at all, or a structurally well-formed
token. -/
inductive AuthHeader where
  | empty
  | malformed
  | token (t : SignedToken)
deriving Repr, DecidableEq

/-- Outcome of the `AuthRequired` middleware: abort with HTTP 401, or call
the next handler with `userId` set to the authenticated principal. -/
inductive AuthOutcome where
  | abort401
  | proceed (userId : Nat)
deriving Repr, DecidableEq

/-- `AuthRequired`: empty header ⇒ 401; unparsable token or bad signature ⇒
401; valid token ⇒ proceed with the embedded user ID. -/
def authRequired (mac : MacFun) (secret : String) (header : AuthHeader) :
    AuthOutcome :=
  match header with
  | .empty => .abort401
  | .malformed => .abort401
  | .token t =>
    match parseWithClaims mac secret t with
    | none => .abort401
    | some claims => .proceed claims.userId

/-! ## The three authentication flows -/

/-- Outcome of `db.Create(&user)` as `register` observes it: either the
store assigned an ID (GORM fills `user.ID` after insert), or it failed with
an error message (a SQLite uniqueness violation carries `UNIQUE` in its
message). -/
inductive CreateResult where
  | ok (id : Nat)
  | fail (msg : String)
deriving Repr, DecidableEq

/-- The user record `register` hands to `db.Create`: the submitted record
with the plaintext `Password` field overwritten by the encoded hash. -/
def registerStored (idKey : IDKeyFun) (salt : List Nat) (user : User) :
    User :=
  { user with password := hashPassword idKey salt user.password registerParams }

/-- `register`: hash the password with the fixed parameters (a hashing
failure is `log.Fatal` in the source, i.e. nothing is ever stored on that
path), overwrite the plaintext, create the record, translate create errors
(`UNIQUE` in the message ⇒ user already exists, anything else ⇒ unknown),
reject a missing assigned ID, and sign a token for the new user. -/
def register (idKey : IDKeyFun) (mac : MacFun) (secret : String) (now : Nat)
    (salt : List Nat) (create : User → CreateResult) (user : User) :
    Except String AuthResponse :=
  let stored := registerStored idKey salt user
  match create stored with
  | .fail msg =>
    if strContains msg "UNIQUE" then .error "User already exists"
    else .error "unknown error"
  | .ok id =>
    if id = 0 then .error "failed to get user id, try login"
    else .ok { token := signJWT mac secret now { stored with id := id } }

/-- `login`: select a user with the given username and local type
(`type IS NULL OR type = 0`; `Take` is modelled as the first match), then
compare the submitted password against the stored hash; a decode error, a
mismatch and a missing user map to three caller-visible error strings. -/
def login (idKey : IDKeyFun) (mac : MacFun) (secret : String) (now : Nat)
    (db : List User) (user : User) : Except String AuthResponse :=
  match db.find? (fun u => u.username == user.username && u.type == 0) with
  | none => .error "User does not exist"
  | some dbUser =>
    match compareHash idKey user.password dbUser.password with
    | .error _ => .error "failed to login"
    | .ok false => .error "incorrect details"
    | .ok true => .ok { token := signJWT mac secret now dbUser }

/-- What the Jellyfin `/Users/AuthenticateByName` call produced, branch by
branch as the source distinguishes them: transport failure (`client.Do`
error), a non-200 status, a 200 body that does not unmarshal, or a parsed
response carrying the external user's `Id` and `Name`.  (Request
construction and JSON marshalling of the outbound body cannot fail for the
values the source builds.) -/
inductive JFNetOutcome where
  | requestFailed
  | non200 (code : Nat)
  | badBody
  | okBody (id : String) (name : String)
deriving Repr, DecidableEq

/-- The store as `loginJellyfin` uses it: the user table plus the next ID
the store will assign on `Create`. -/
structure DB where
  users : List User
  nextId : Nat
deriving Repr, DecidableEq

/-- `db.Create` for the delegated flow: the `User` schema's composite
unique index on `(username, type)` is the only constraint reachable here,
so the create fails exactly when the new record's `(username, type)` pair
collides with a stored row; otherwise the record is appended with the
store-assigned ID. -/
def dbCreate (db : DB) (u : User) : Option (User × DB) :=
  if db.users.any (fun v => v.username == u.username && v.type == u.type) then
    none
  else
    let created := { u with id := db.nextId }
    some (created, { users := db.users ++ [created], nextId := db.nextId + 1 })

/-- `loginJellyfin`: refuse outright when `JELLYFIN_HOST` is unset; relay
the provider outcome's failure branches; reject an empty external user ID;
then resolve the local record by `third_party_id` — not found ⇒ create a
fresh record carrying the external ID, the provider's display name and the
`JELLYFIN_USER` type, and fail with the creation-failure error when the
store's create fails; found ⇒ reuse it unchanged — and sign a token for
the resolved user.  The possibly-updated store is returned alongside. -/
def loginJellyfin (mac : MacFun) (secret : String) (now : Nat)
    (host : String) (net : JFNetOutcome) (db : DB) (_user : User) :
    Except String (AuthResponse × DB) :=
  if host = "" then .error "jellyfin login not enabled"
  else
    match net with
    | .requestFailed => .error "request failed"
    | .non200 _ => .error "incorrect details"
    | .badBody => .error "failed to process response"
    | .okBody id name =>
      if id = "" then .error "jellyfin returned empty user id"
      else
        match db.users.find? (fun u => u.thirdPartyID == id) with
        | some dbUser => .ok ({ token := signJWT mac secret now dbUser }, db)
        | none =>
          let fresh : User :=
            { id := 0, username := name, password := ""
              type := 1, thirdPartyID := id }
          match dbCreate db fresh with
          | none => .error "failed to create new user from jellyfin"
          | some r => .ok ({ token := signJWT mac secret now r.1 }, r.2)

/-! ## Concrete instances used to exhibit runs of the code -/

/-- A concrete, executable stand-in for the abstract `argon2.IDKey`
primitive, used to evaluate the flows on closed inputs: the derived key is
`keyLength` copies of the password length (mod 256), so different-length
passwords derive different keys. -/
def stdIdKey : IDKeyFun :=
  fun password _ _ _ _ keyLength => List.replicate keyLength (password.length % 256)

/-- A concrete, executable stand-in for the abstract HMAC primitive, used to
evaluate the token flows on closed inputs; it depends on both the secret and
the payload. -/
def stdMac : MacFun :=
  fun secret claims => secret ++ "|" ++ claims.username

/-- The well-formedness check mirroring exactly the conditions `decodeHash`
tests: six `$`-delimited fields, a scannable version field equal to
`argon2.Version`, scannable cost parameters, and base64-decodable salt and
key fields. -/
def hashWellFormed (s : String) : Bool :=
  match splitOn '$' s.data with
  | [_, _, v2, v3, v4, v5] =>
    (match sscanfVEq v2 with
     | some v => v == (argon2Version : Int)
     | none => false)
    && (sscanfParams v3).isSome && (b64Decode v4).isSome
    && (b64Decode v5).isSome
  | _ => false

/-- Fixture: a local user as `signJWT` sees it. -/
def aliceUser : User := ⟨7, "alice", "", 0, ""⟩

/-- Fixture: the claims `signJWT` embeds for `aliceUser` at time 5. -/
def aliceClaims : TokenClaims := ⟨7, "alice", 5, "watcharr"⟩

/-- Fixture: a caller-supplied registration record carrying a non-local
provider type. -/
def eveUser : User := ⟨0, "eve", "pw", 1, ""⟩

/-- Fixture: a stored local user whose password hash encodes
"correcthorse" under `stdIdKey` with a fixed salt. -/
def bobStored : User :=
  ⟨1, "bob", hashPassword stdIdKey [0, 1, 2, 3] "correcthorse" registerParams,
   0, ""⟩

/-- Fixture: a login attempt for an unknown username. -/
def nobodyUser : User := ⟨0, "nobody", "x", 0, ""⟩

/-- Fixture: a login attempt for `bob` with the wrong password. -/
def bobWrongUser : User := ⟨0, "bob", "wrongpass", 0, ""⟩

/-- Fixture: a store already holding one delegated user with third-party ID
`jf-1`. -/
def jellyStored : User := ⟨1, "jelly", "", 1, "jf-1"⟩

/-- Fixture: a stored delegated user whose cached display name `neo`
collides, under the `(username, type)` unique index, with a later delegated
login whose provider reports a fresh third-party ID but the same name. -/
def neoStored : User := ⟨1, "neo", "", 1, "jf-1"⟩

deriving instance DecidableEq for Except

/-! ## Supporting lemmas: splitting on the field separator -/

theorem splitOn_cons_sep (sep : Char) (rest : List Char) :
    splitOn sep (sep :: rest) = [] :: splitOn sep rest := by
  simp [splitOn]

theorem splitOn_sep_notMem (sep : Char) (g : List Char) (hg : sep ∉ g) :
    splitOn sep g = [g] := by
  induction g with
  | nil => rfl
  | cons c cs ih =>
    have hc : ¬(c = sep) := fun h => hg (h ▸ List.mem_cons_self c cs)
    have hcs : sep ∉ cs := fun h => hg (List.mem_cons_of_mem _ h)
    simp [splitOn, hc, ih hcs]

theorem splitOn_append_sep (sep : Char) (g rest : List Char) (hg : sep ∉ g) :
    splitOn sep (g ++ sep :: rest) = g :: splitOn sep rest := by
  induction g with
  | nil => simpa using splitOn_cons_sep sep rest
  | cons c cs ih =>
    have hc : ¬(c = sep) := fun h => hg (h ▸ List.mem_cons_self c cs)
    have hcs : sep ∉ cs := fun h => hg (List.mem_cons_of_mem _ h)
    simp [splitOn, hc, ih hcs]

theorem splitOn_six (g1 g2 g3 g4 g5 : List Char)
    (h1 : '$' ∉ g1) (h2 : '$' ∉ g2) (h3 : '$' ∉ g3) (h4 : '$' ∉ g4)
    (h5 : '$' ∉ g5) :
    splitOn '$' ('$' :: g1 ++ '$' :: g2 ++ '$' :: g3 ++ '$' :: g4 ++ '$' :: g5)
      = [[], g1, g2, g3, g4, g5] := by
  have e : '$' :: g1 ++ '$' :: g2 ++ '$' :: g3 ++ '$' :: g4 ++ '$' :: g5
      = '$' :: (g1 ++ '$' :: (g2 ++ '$' :: (g3 ++ '$' :: (g4 ++ '$' :: g5)))) := by
    simp
  rw [e, splitOn_cons_sep, splitOn_append_sep _ _ _ h1,
    splitOn_append_sep _ _ _ h2, splitOn_append_sep _ _ _ h3,
    splitOn_append_sep _ _ _ h4, splitOn_sep_notMem _ _ h5]
/-! ## Supporting lemmas: decimal digits -/

theorem digitChar_isDigit {d : Nat} (h : d < 10) :
    (digitChar d).isDigit = true := by
  interval_cases d <;> decide

theorem digitVal_digitChar {d : Nat} (h : d < 10) : digitVal (digitChar d) = d := by
  interval_cases d <;> decide

theorem natToCharsAux_fuel : ∀ (f1 f2 n : Nat) (acc : List Char),
    n < f1 → n < f2 → natToCharsAux f1 n acc = natToCharsAux f2 n acc := by
  intro f1 f2 n
  induction n using Nat.strongRecOn generalizing f1 f2 with
  | _ n ih =>
    intro acc h1 h2
    match f1, f2 with
    | 0, _ => omega
    | _ + 1, 0 => omega
    | f1 + 1, f2 + 1 =>
      simp only [natToCharsAux]
      split
      · rfl
      · exact ih (n / 10) (by omega) _ _ _ (by omega) (by omega)

theorem natToCharsAux_acc (f : Nat) : ∀ (n : Nat) (acc : List Char),
    natToCharsAux f n acc = natToCharsAux f n [] ++ acc := by
  induction f with
  | zero => intro n acc; simp [natToCharsAux]
  | succ f ih =>
    intro n acc
    simp only [natToCharsAux]
    split
    · rfl
    · rw [ih (n / 10), ih (n / 10) [digitChar (n % 10)]]
      simp

theorem natToChars_lt {n : Nat} (h : n < 10) : natToChars n = [digitChar n] := by
  simp [natToChars, natToCharsAux, h]

theorem natToChars_ge {n : Nat} (h : 10 ≤ n) :
    natToChars n = natToChars (n / 10) ++ [digitChar (n % 10)] := by
  have h10 : ¬(n < 10) := by omega
  show natToCharsAux (n + 1) n [] = _
  rw [show natToCharsAux (n + 1) n []
      = natToCharsAux n (n / 10) [digitChar (n % 10)] by
    simp [natToCharsAux, h10]]
  rw [natToCharsAux_acc, natToCharsAux_fuel n (n / 10 + 1) (n / 10) []
    (by omega) (by omega)]
  rfl

theorem natToChars_isDigit (n : Nat) : ∀ c ∈ natToChars n, c.isDigit = true := by
  induction n using Nat.strongRecOn with
  | _ n ih =>
    by_cases h : n < 10
    · rw [natToChars_lt h]
      intro c hc
      simp at hc
      exact hc ▸ digitChar_isDigit h
    · rw [natToChars_ge (by omega)]
      intro c hc
      rcases List.mem_append.mp hc with hm | hm
      · exact ih (n / 10) (by omega) c hm
      · simp at hm
        exact hm ▸ digitChar_isDigit (by omega)

theorem natToChars_ne_nil (n : Nat) : natToChars n ≠ [] := by
  by_cases h : n < 10
  · rw [natToChars_lt h]; simp
  · rw [natToChars_ge (by omega)]; simp

theorem digitsToNat_append_one (ds : List Char) (c : Char) :
    digitsToNat (ds ++ [c]) = digitsToNat ds * 10 + digitVal c := by
  simp [digitsToNat, List.foldl_append]

theorem digitsToNat_natToChars (n : Nat) : digitsToNat (natToChars n) = n := by
  induction n using Nat.strongRecOn with
  | _ n ih =>
    by_cases h : n < 10
    · rw [natToChars_lt h]
      simp [digitsToNat, digitVal_digitChar h]
    · rw [natToChars_ge (by omega), digitsToNat_append_one,
        ih (n / 10) (by omega), digitVal_digitChar (by omega)]
      omega
/-! ## Supporting lemmas: scanning numbers back -/

theorem takeDigits_digits_append (ds rest : List Char)
    (hds : ∀ c ∈ ds, c.isDigit = true) (hrest : headNotDigit rest) :
    takeDigits (ds ++ rest) = (ds, rest) := by
  induction ds with
  | nil =>
    simp only [List.nil_append]
    match rest, hrest with
    | [], _ => rfl
    | c :: cs, h => simp [takeDigits, show c.isDigit = false from h]
  | cons c cs ih =>
    have hc := hds c (List.mem_cons_self c cs)
    simp [takeDigits, hc, ih (fun x hx => hds x (List.mem_cons_of_mem _ hx))]

theorem parseNat_natToChars (n : Nat) (rest : List Char)
    (hrest : headNotDigit rest) :
    parseNat (natToChars n ++ rest) = some (n, rest) := by
  have hdrop : (natToChars n ++ rest).dropWhile (· = ' ')
      = natToChars n ++ rest := by
    obtain ⟨c, cs, hcs⟩ := List.exists_cons_of_ne_nil (natToChars_ne_nil n)
    have hc : c.isDigit = true := natToChars_isDigit n c (by rw [hcs]; simp)
    have hspace : ¬(c = ' ') := by
      intro h
      rw [h] at hc
      exact absurd hc (by decide)
    rw [hcs, List.cons_append, List.dropWhile_cons]
    simp [hspace]
  have htake := takeDigits_digits_append (natToChars n) rest
    (natToChars_isDigit n) hrest
  simp only [parseNat, hdrop, htake]
  simp [natToChars_ne_nil n, digitsToNat_natToChars n]

theorem sscanfParams_format (m t par : Nat)
    (hm : m < 2 ^ 32) (ht : t < 2 ^ 32) (hpar : par < 2 ^ 8) :
    sscanfParams (('m' :: '=' :: natToChars m)
      ++ (',' :: 't' :: '=' :: natToChars t)
      ++ (',' :: 'p' :: '=' :: natToChars par)) = some (m, t, par) := by
  have h1 : parseNat (natToChars m ++ (',' :: 't' :: '='
        :: (natToChars t ++ (',' :: 'p' :: '=' :: natToChars par))))
      = some (m, ',' :: 't' :: '='
        :: (natToChars t ++ (',' :: 'p' :: '=' :: natToChars par))) :=
    parseNat_natToChars _ _ rfl
  have h2 : parseNat (natToChars t ++ (',' :: 'p' :: '=' :: natToChars par))
      = some (t, ',' :: 'p' :: '=' :: natToChars par) :=
    parseNat_natToChars _ _ rfl
  have h3 : parseNat (natToChars par) = some (par, []) := by
    have h := parseNat_natToChars par [] trivial
    simpa using h
  simp only [List.cons_append, List.append_assoc, List.nil_append]
  simp only [sscanfParams, h1, h2, h3]
  exact if_pos ⟨hm, ht, hpar⟩

theorem sscanfVEq_format : sscanfVEq ('v' :: '=' :: natToChars argon2Version)
    = some (argon2Version : Int) := by decide
/-! ## Supporting lemmas: base64 -/

theorem b64Val_b64Char : ∀ s : Fin 64, b64Val (b64Char s.val) = some s.val := by
  decide

theorem b64Char_ne_dollar : ∀ s : Fin 64, ¬(b64Char s.val = '$') := by
  decide

theorem b64EncodeSextets_lt : ∀ bs : List Nat, (∀ b ∈ bs, b < 256) →
    ∀ s ∈ b64EncodeSextets bs, s < 64
  | [], _, s, hs => by simp [b64EncodeSextets] at hs
  | [b0], h, s, hs => by
    have hb0 : b0 < 256 := h b0 (by simp)
    simp [b64EncodeSextets] at hs
    rcases hs with rfl | rfl <;> omega
  | [b0, b1], h, s, hs => by
    have hb0 : b0 < 256 := h b0 (by simp)
    have hb1 : b1 < 256 := h b1 (by simp)
    simp [b64EncodeSextets] at hs
    rcases hs with rfl | rfl | rfl <;> omega
  | b0 :: b1 :: b2 :: rest, h, s, hs => by
    have hb0 : b0 < 256 := h b0 (by simp)
    have hb1 : b1 < 256 := h b1 (by simp)
    have hb2 : b2 < 256 := h b2 (by simp)
    have ih := b64EncodeSextets_lt rest (fun b hb => h b (by simp [hb]))
    simp only [b64EncodeSextets, List.mem_cons] at hs
    rcases hs with rfl | rfl | rfl | rfl | hmem
    · omega
    · omega
    · omega
    · omega
    · exact ih s hmem

theorem b64Vals_map_b64Char (ss : List Nat) (h : ∀ s ∈ ss, s < 64) :
    b64Vals (ss.map b64Char) = some ss := by
  induction ss with
  | nil => rfl
  | cons s ss ih =>
    have hs : s < 64 := h s (by simp)
    simp only [List.map_cons, b64Vals, b64Val_b64Char ⟨s, hs⟩,
      ih (fun x hx => h x (by simp [hx]))]

theorem b64DecodeSextets_encode : ∀ bs : List Nat, (∀ b ∈ bs, b < 256) →
    b64DecodeSextets (b64EncodeSextets bs) = some bs
  | [], _ => rfl
  | [b0], h => by
    have hb0 : b0 < 256 := h b0 (by simp)
    have hmod : b0 % 4 * 16 % 16 = 0 := by omega
    simp [b64EncodeSextets, b64DecodeSextets, hmod]
    omega
  | [b0, b1], h => by
    have hb0 : b0 < 256 := h b0 (by simp)
    have hb1 : b1 < 256 := h b1 (by simp)
    have hmod : b1 % 16 * 4 % 4 = 0 := by omega
    simp [b64EncodeSextets, b64DecodeSextets, hmod]
    omega
  | b0 :: b1 :: b2 :: rest, h => by
    have hb0 : b0 < 256 := h b0 (by simp)
    have hb1 : b1 < 256 := h b1 (by simp)
    have hb2 : b2 < 256 := h b2 (by simp)
    have ih := b64DecodeSextets_encode rest (fun b hb => h b (by simp [hb]))
    simp [b64EncodeSextets, b64DecodeSextets, ih]
    omega

theorem b64Decode_b64EncodeChars (bs : List Nat) (h : ∀ b ∈ bs, b < 256) :
    b64Decode (b64EncodeChars bs) = some bs := by
  simp only [b64Decode, b64EncodeChars,
    b64Vals_map_b64Char _ (b64EncodeSextets_lt bs h), Option.bind_some]
  exact b64DecodeSextets_encode bs h

theorem b64EncodeChars_notMem_dollar (bs : List Nat) (h : ∀ b ∈ bs, b < 256) :
    '$' ∉ b64EncodeChars bs := by
  intro hmem
  simp only [b64EncodeChars, List.mem_map] at hmem
  obtain ⟨s, hs, hc⟩ := hmem
  exact b64Char_ne_dollar ⟨s, b64EncodeSextets_lt bs h s hs⟩ hc
/-! ## The hash/verify round trip -/

theorem stringData_mk (l : List Char) : (String.mk l).data = l := rfl

theorem isDigit_ne_dollar {c : Char} (h : c.isDigit = true) : ¬(c = '$') := by
  intro he
  rw [he] at h
  exact absurd h (by decide)

theorem paramsField_notMem_dollar (m t par : Nat) :
    '$' ∉ ('m' :: '=' :: natToChars m) ++ (',' :: 't' :: '=' :: natToChars t)
      ++ (',' :: 'p' :: '=' :: natToChars par) := by
  intro hmem
  simp only [List.append_assoc, List.mem_append, List.mem_cons] at hmem
  rcases hmem with (h | h | h) | (h | h | h | h) | (h | h | h | h) <;>
    first
      | exact absurd h (by decide)
      | exact isDigit_ne_dollar (natToChars_isDigit _ _ h) rfl

theorem hashPassword_data (idKey : IDKeyFun) (salt : List Nat)
    (password : String) (p : ArgonParams) :
    (hashPassword idKey salt password p).data
      = '$' :: "argon2id".data
        ++ '$' :: ('v' :: '=' :: natToChars argon2Version)
        ++ '$' :: (('m' :: '=' :: natToChars p.memory)
          ++ (',' :: 't' :: '=' :: natToChars p.iterations)
          ++ (',' :: 'p' :: '=' :: natToChars p.parallelism))
        ++ '$' :: b64EncodeChars salt
        ++ '$' :: b64EncodeChars (idKey password salt p.iterations p.memory
            p.parallelism p.keyLength) := by
  simp [hashPassword, stringData_mk]

theorem decodeHash_hashPassword (idKey : IDKeyFun) (password : String)
    (salt : List Nat) (p : ArgonParams)
    (hm : p.memory < 2 ^ 32) (ht : p.iterations < 2 ^ 32)
    (hpar : p.parallelism < 2 ^ 8)
    (hsalt : ∀ b ∈ salt, b < 256)
    (hkey : ∀ b ∈ idKey password salt p.iterations p.memory p.parallelism
      p.keyLength, b < 256) :
    decodeHash (hashPassword idKey salt password p)
      = .ok ({ memory := p.memory, iterations := p.iterations,
               parallelism := p.parallelism, saltLength := salt.length,
               keyLength := (idKey password salt p.iterations p.memory
                 p.parallelism p.keyLength).length },
             salt,
             idKey password salt p.iterations p.memory p.parallelism
               p.keyLength) := by
  have hsplit : splitOn '$' (hashPassword idKey salt password p).data
      = [[], "argon2id".data, 'v' :: '=' :: natToChars argon2Version,
         ('m' :: '=' :: natToChars p.memory)
           ++ (',' :: 't' :: '=' :: natToChars p.iterations)
           ++ (',' :: 'p' :: '=' :: natToChars p.parallelism),
         b64EncodeChars salt,
         b64EncodeChars (idKey password salt p.iterations p.memory
           p.parallelism p.keyLength)] := by
    rw [hashPassword_data]
    exact splitOn_six _ _ _ _ _ (by decide) (by decide)
      (paramsField_notMem_dollar _ _ _)
      (b64EncodeChars_notMem_dollar _ hsalt)
      (b64EncodeChars_notMem_dollar _ hkey)
  simp only [decodeHash, hsplit, sscanfVEq_format,
    sscanfParams_format _ _ _ hm ht hpar,
    b64Decode_b64EncodeChars _ hsalt, b64Decode_b64EncodeChars _ hkey]
  simp [argon2Version]

/-- C1: verifying a password against its own freshly produced hash always
succeeds: for every password, salt, cost parameters (within their Go
machine widths) and key-derivation function whose output is a byte string
of the requested length, `compareHash` of the password against
`hashPassword`'s encoded output returns `(true, nil)`. -/
theorem hashPassword_compareHash_roundtrip (idKey : IDKeyFun)
    (password : String) (salt : List Nat) (p : ArgonParams)
    (hm : p.memory < 2 ^ 32) (ht : p.iterations < 2 ^ 32)
    (hpar : p.parallelism < 2 ^ 8)
    (hsalt : ∀ b ∈ salt, b < 256)
    (hkey : ∀ b ∈ idKey password salt p.iterations p.memory p.parallelism
      p.keyLength, b < 256)
    (hlen : (idKey password salt p.iterations p.memory p.parallelism
      p.keyLength).length = p.keyLength) :
    compareHash idKey password (hashPassword idKey salt password p)
      = .ok true := by
  simp only [compareHash,
    decodeHash_hashPassword idKey password salt p hm ht hpar hsalt hkey, hlen]
  simp [constantTimeCompare]

theorem hashPassword_compareHash_roundtrip_witness :
    (∀ b ∈ [0, 1, 2, 3], b < 256)
    ∧ compareHash stdIdKey "correcthorse"
        (hashPassword stdIdKey [0, 1, 2, 3] "correcthorse" registerParams)
      = .ok true :=
  ⟨by decide,
   hashPassword_compareHash_roundtrip stdIdKey "correcthorse" [0, 1, 2, 3]
     registerParams (by decide) (by decide) (by decide) (by decide)
     (by decide) (by decide)⟩
/-! ## Token issuance and verification -/

/-- C2: a token produced by `signJWT` for a user, verified with the same
signing secret, parses as valid and yields exactly the claims
`{userId := user.id, username := user.username}` (plus the issued-at and
issuer registered claims the source sets), and the `AuthRequired`
middleware proceeds with that user ID as the principal. -/
theorem signJWT_parse_roundtrip (mac : MacFun) (secret : String) (now : Nat)
    (user : User) :
    parseWithClaims mac secret (signJWT mac secret now user)
      = some ⟨user.id, user.username, now, "watcharr"⟩
    ∧ authRequired mac secret (.token (signJWT mac secret now user))
      = .proceed user.id := by
  constructor
  · simp [parseWithClaims, signJWT]
  · simp [authRequired, parseWithClaims, signJWT]

/-- C9: a token signed under one secret and verified under another is
rejected with 401 and yields no principal, whenever the signature under the
verifying secret differs from the one under the issuing secret (which is
what distinct signing secrets produce under a real HMAC). -/
theorem authRequired_cross_secret (mac : MacFun) (s1 s2 : String)
    (now : Nat) (user : User)
    (h : mac s2 ⟨user.id, user.username, now, "watcharr"⟩
        ≠ mac s1 ⟨user.id, user.username, now, "watcharr"⟩) :
    authRequired mac s2 (.token (signJWT mac s1 now user)) = .abort401 := by
  simp only [authRequired, signJWT, parseWithClaims]
  rw [if_neg (fun he => h (by simpa using he.symm))]

theorem authRequired_cross_secret_witness :
    stdMac "secret-two" aliceClaims ≠ stdMac "secret-one" aliceClaims
    ∧ authRequired stdMac "secret-two"
        (.token (signJWT stdMac "secret-one" 5 aliceUser)) = .abort401 :=
  ⟨by decide,
   authRequired_cross_secret stdMac "secret-one" "secret-two" 5 aliceUser
     (by decide)⟩
/-! ## Registration and the delegated flow -/

/-- C7: when the store's create fails, `register` inspects the error
message: a uniqueness-constraint violation (`UNIQUE` in the message) maps
to the `User already exists` error and anything else to the generic
`unknown error`; in both cases the result is an error, so no token is
issued. -/
theorem register_create_failure (idKey : IDKeyFun) (mac : MacFun)
    (secret : String) (now : Nat) (salt : List Nat)
    (create : User → CreateResult) (user : User) (msg : String)
    (hfail : create (registerStored idKey salt user) = .fail msg) :
    register idKey mac secret now salt create user
      = .error (if strContains msg "UNIQUE" then "User already exists"
          else "unknown error") := by
  simp only [register, hfail]
  by_cases hc : strContains msg "UNIQUE" <;> simp [hc]

theorem register_create_failure_witness :
    register stdIdKey stdMac "sec" 0 [0]
        (fun _ => .fail "UNIQUE constraint failed: users.username") eveUser
      = .error "User already exists"
    ∧ register stdIdKey stdMac "sec" 0 [0]
        (fun _ => .fail "disk I/O error") eveUser
      = .error "unknown error" := by
  constructor
  · rw [register_create_failure stdIdKey stdMac "sec" 0 [0]
      (fun _ => .fail "UNIQUE constraint failed: users.username") eveUser
      "UNIQUE constraint failed: users.username" rfl]
    decide
  · rw [register_create_failure stdIdKey stdMac "sec" 0 [0]
      (fun _ => .fail "disk I/O error") eveUser "disk I/O error" rfl]
    decide

/-- C8: delegated login with no configured provider endpoint
(`JELLYFIN_HOST` empty) fails with the dedicated "jellyfin login not
enabled" error — for every network outcome and store state, so before any
network call or store operation — and that error is distinct from the
generic transport-failure and credential errors of the same flow; no token
is issued. -/
theorem loginJellyfin_host_unset (mac : MacFun) (secret : String)
    (now : Nat) (net : JFNetOutcome) (db : DB) (user : User) :
    loginJellyfin mac secret now "" net db user
      = .error "jellyfin login not enabled"
    ∧ ("jellyfin login not enabled" : String) ≠ "request failed"
    ∧ ("jellyfin login not enabled" : String) ≠ "incorrect details"
    ∧ ("jellyfin login not enabled" : String) ≠ "unknown error" := by
  refine ⟨rfl, by decide, by decide, by decide⟩

/-- C10: `register` overwrites the submitted plaintext `Password` with the
encoded argon2id hash before the store create: for every caller input, the
record handed to `db.Create` carries exactly `hashPassword`'s encoded
output as its password, and that string begins with the `$argon2id$`
prefix. -/
theorem register_stores_encoded_hash (idKey : IDKeyFun) (salt : List Nat)
    (user : User) :
    (registerStored idKey salt user).password
      = hashPassword idKey salt user.password registerParams
    ∧ ∃ rest, (registerStored idKey salt user).password.data
        = "$argon2id$".data ++ rest := by
  refine ⟨rfl, ?_⟩
  have harg : "argon2id".data = ['a', 'r', 'g', 'o', 'n', '2', 'i', 'd'] := rfl
  have hfull : "$argon2id$".data
      = ['$', 'a', 'r', 'g', 'o', 'n', '2', 'i', 'd', '$'] := rfl
  rw [show (registerStored idKey salt user).password
    = hashPassword idKey salt user.password registerParams from rfl]
  rw [hashPassword_data, harg, hfull]
  refine ⟨'v' :: '=' :: natToChars argon2Version
    ++ '$' :: ('m' :: '=' :: natToChars registerParams.memory
      ++ ',' :: 't' :: '=' :: natToChars registerParams.iterations
      ++ ',' :: 'p' :: '=' :: natToChars registerParams.parallelism)
    ++ '$' :: b64EncodeChars salt
    ++ '$' :: b64EncodeChars (idKey user.password salt
        registerParams.iterations registerParams.memory
        registerParams.parallelism registerParams.keyLength), ?_⟩
  simp

/-- C4 evidence: `register` never resets the caller-supplied provider type
— the record handed to the store keeps `type` as submitted, so a request
body carrying `type = 1` creates a record whose provider type is Jellyfin,
not Local, through the local registration flow. -/
theorem registerStored_keeps_caller_type :
    (registerStored stdIdKey [0, 1, 2, 3] eveUser).type = 1
    ∧ (1 : Nat) ≠ 0
    ∧ (registerStored stdIdKey [0, 1, 2, 3] eveUser).password ≠ ""
    ∧ ∀ (idKey : IDKeyFun) (salt : List Nat) (user : User),
        (registerStored idKey salt user).type = user.type :=
  ⟨rfl, by decide, by decide, fun _ _ _ => rfl⟩
/-! ## Local login error surface -/

/-- C3 counterexample: with a store holding only `bob`, the unknown-user
login and the wrong-password login produce two different caller-visible
errors, so the two cases are distinguishable to the caller (the route
handler returns `err.Error()` verbatim). -/
theorem login_errors_differ :
    login stdIdKey stdMac "sec" 0 [bobStored] nobodyUser
      = .error "User does not exist"
    ∧ login stdIdKey stdMac "sec" 0 [bobStored] bobWrongUser
      = .error "incorrect details"
    ∧ ("User does not exist" : String) ≠ "incorrect details" := by
  refine ⟨by decide, by decide, by decide⟩

/-- C3 amended: the two failure cases of local login are *distinguishable*:
a missing local user yields the error "User does not exist", while an
existing user with a non-matching password yields "incorrect details". -/
theorem login_error_cases (idKey : IDKeyFun) (mac : MacFun)
    (secret : String) (now : Nat) (db : List User) (user : User) :
    (db.find? (fun u => u.username == user.username && u.type == 0) = none →
      login idKey mac secret now db user = .error "User does not exist")
    ∧ (∀ dbUser,
        db.find? (fun u => u.username == user.username && u.type == 0)
          = some dbUser →
        compareHash idKey user.password dbUser.password = .ok false →
        login idKey mac secret now db user = .error "incorrect details") := by
  constructor
  · intro h
    simp [login, h]
  · intro dbUser h hc
    simp [login, h, hc]

theorem login_error_cases_witness :
    login stdIdKey stdMac "sec" 0 [bobStored] nobodyUser
      = .error "User does not exist"
    ∧ login stdIdKey stdMac "sec" 0 [bobStored] bobWrongUser
      = .error "incorrect details" :=
  ⟨(login_error_cases stdIdKey stdMac "sec" 0 [bobStored] nobodyUser).1
     (by decide),
   (login_error_cases stdIdKey stdMac "sec" 0 [bobStored] bobWrongUser).2
     bobStored (by decide) (by decide)⟩

/-! ## Delegated login upsert -/

theorem decodeHash_ok_wellFormed (s : String)
    (r : ArgonParams × List Nat × List Nat) (h : decodeHash s = .ok r) :
    hashWellFormed s = true := by
  unfold decodeHash at h
  unfold hashWellFormed
  split at h
  · rename_i v0 v1 v2 v3 v4 v5 heq
    split at h
    · exact absurd h (by simp)
    · rename_i version hver
      split at h
      · exact absurd h (by simp)
      · rename_i hvne
        split at h
        · exact absurd h (by simp)
        · rename_i params hparams
          split at h
          · exact absurd h (by simp)
          · rename_i salt hsalt
            split at h
            · exact absurd h (by simp)
            · rename_i hash hhash
              have hv : version = (argon2Version : Int) := by
                by_contra hc
                exact hvne hc
              simp [hver, hparams, hsalt, hhash, hv]
  · exact absurd h (by simp)

/-- C6: hash decoding fails closed: every input string that fails any of
the format conditions — six `$`-delimited fields, a scannable version field
equal to the supported argon2 version, scannable cost-parameter fields,
base64-decodable salt and key fields — makes `decodeHash` return an error,
and `compareHash` against any password propagates that same error rather
than answering a false "no match". -/
theorem decodeHash_fails_closed (s : String) (h : hashWellFormed s = false) :
    ∃ e, decodeHash s = .error e
      ∧ ∀ (idKey : IDKeyFun) (password : String),
          compareHash idKey password s = .error e := by
  cases hd : decodeHash s with
  | ok r => exact absurd (decodeHash_ok_wellFormed s r hd) (by simp [h])
  | error e =>
    refine ⟨e, rfl, ?_⟩
    intro idKey password
    simp [compareHash, hd]

theorem decodeHash_fails_closed_witness :
    hashWellFormed "abc" = false
    ∧ ∃ e, decodeHash "abc" = .error e
        ∧ ∀ (idKey : IDKeyFun) (password : String),
            compareHash idKey password "abc" = .error e :=
  ⟨by decide, decodeHash_fails_closed "abc" (by decide)⟩
